import Mathlib

/-!
Verification development for the `qr-generator-landing` repository.

The repository's core logic lives in two TypeScript modules:
`src/utils/totp.ts` (secret normalisation for TOTP) and
`src/utils/crypto.ts` (the password-based encryption envelope codec).
This file gives a shallow embedding of those modules in Lean 4 and proves
the specified properties about them.

JavaScript strings are modelled as Lean `String`s, byte sequences as
`List Nat` with every element `< 256`, and 32-bit JavaScript bitwise
arithmetic as `Nat` arithmetic with an explicit `% 2 ^ 32`.
External platform collaborators (WebCrypto, TextEncoder/TextDecoder for the
crypto module, the Base64 codec `btoa`/`atob`, and the WHATWG `URL` parser)
are not repository code; they are modelled from the spec at their interface
boundary, as noted on each definition.
-/

namespace QRGen

/-! ## Character classes used by the normaliser (from `totp.ts`) -/

/-- The detected format of a user-supplied secret, the return type of
`detectSecretFormat` in `totp.ts` (string literals `'base32' | 'hex' |
'words' | 'mixed'` in the source). -/
inductive SecretFormat where
  | base32
  | hex
  | words
  | mixed
deriving DecidableEq, Repr

/-- A character of the canonical Base32 alphabet `A–Z2–7`
(the character class `[A-Z2-7]` in the source's regexes). -/
def isB32Char (c : Char) : Bool :=
  (65 ≤ c.toNat && c.toNat ≤ 90) || (50 ≤ c.toNat && c.toNat ≤ 55)

/-- A hexadecimal digit, case-insensitive (the regex `[0-9A-F]` with the
`i` flag in the source). -/
def isHexChar (c : Char) : Bool :=
  (48 ≤ c.toNat && c.toNat ≤ 57) || (65 ≤ c.toNat && c.toNat ≤ 70) ||
    (97 ≤ c.toNat && c.toNat ≤ 102)

/-- A whitespace character, modelling the core of the JavaScript regex
class `\s` (space, tab, line feed, vertical tab, form feed, carriage
return; the rarely-typed Unicode space characters are omitted). -/
def isWhitespaceChar (c : Char) : Bool :=
  c.toNat == 32 || c.toNat == 9 || c.toNat == 10 || c.toNat == 11 ||
    c.toNat == 12 || c.toNat == 13

/-- A character removed by the cleaning step: whitespace, hyphen or
underscore (the regex class `[\s\-_]` in the source). -/
def isSeparatorChar (c : Char) : Bool :=
  isWhitespaceChar c || c.toNat == 45 || c.toNat == 95

/-- ASCII upper-casing of one character, modelling
`String.prototype.toUpperCase` on the ASCII range (the inputs the
normaliser cares about are ASCII). -/
def jsToUpper (c : Char) : Char :=
  if 97 ≤ c.toNat && c.toNat ≤ 122 then Char.ofNat (c.toNat - 32) else c

/-- Models `input.replace(/[\s\-_]/g, '').toUpperCase()` — the *cleaned* form
used throughout `totp.ts`. -/
def cleanInput (s : String) : String :=
  ⟨(s.data.filter (fun c => !(isSeparatorChar c))).map jsToUpper⟩

/-- Models `String.prototype.trim`: strip leading and trailing whitespace. -/
def jsTrim (s : String) : String :=
  ⟨((s.data.dropWhile isWhitespaceChar).reverse.dropWhile isWhitespaceChar).reverse⟩

/-- Models `words.replace(/\s+/g, '').toUpperCase()` — the whitespace-stripped,
upper-cased form used by `wordsToBase32`. -/
def stripWSUpper (s : String) : String :=
  ⟨(s.data.filter (fun c => !(isWhitespaceChar c))).map jsToUpper⟩

/-- The test `/^[A-Z2-7]+=*$/.test(s)`: a non-empty run of canonical
alphabet characters followed only by `=` padding. -/
def matchesBase32 (s : String) : Bool :=
  !(s.data.takeWhile isB32Char).isEmpty &&
    (s.data.dropWhile isB32Char).all (fun c => c == '=')

/-- The test `/^[0-9A-F]+$/i.test(s)`: a non-empty all-hexadecimal string. -/
def isHexString (s : String) : Bool :=
  !(s.data.isEmpty) && s.data.all isHexChar

/-- Models `String.prototype.split` on a single separator character, as a list of
character lists. Models JavaScript `input.split(' ')` (and the other
single-character splits used by the URI parser). -/
def splitOnCharAux (sep : Char) : List Char → List Char → List (List Char)
  | [], acc => [acc.reverse]
  | c :: rest, acc =>
      if c == sep then acc.reverse :: splitOnCharAux sep rest []
      else splitOnCharAux sep rest (c :: acc)

/-- Models `input.split(' ')` from the `'words'` check in `detectSecretFormat`. -/
def splitOnSpace (s : String) : List (List Char) :=
  splitOnCharAux ' ' s.data []

/-- Models `detectSecretFormat` from `totp.ts`: clean the input, test the
canonical-alphabet regex, then the hexadecimal regex, then check for a
space in the *original* input, else `mixed`. -/
def detectSecretFormat (input : String) : SecretFormat :=
  let cleaned := cleanInput input
  if matchesBase32 cleaned = true then .base32
  else if isHexString cleaned = true then .hex
  else if input.data.contains ' ' = true ∧ 1 < (splitOnSpace input).length then .words
  else .mixed

/-! ## The 5-bit packing loop shared by `hexToBase32` and `wordsToBase32` -/

/-- The canonical Base32 alphabet `'ABCDEFGHIJKLMNOPQRSTUVWXYZ234567'`
from the source. -/
def base32Alphabet : List Char := "ABCDEFGHIJKLMNOPQRSTUVWXYZ234567".data

/-- The inner `while (bitsLeft >= 5)` loop of the packing algorithm:
emit `base32Chars[(buffer >> (bitsLeft - 5)) & 31]` while at least five
bits remain, returning the emitted characters and the final bit count.
JavaScript's signed 32-bit shift-and-mask is `buffer / 2 ^ k % 32` on
`Nat` because the five extracted bit positions lie below bit 32. -/
def drainGo (fuel buffer bits : Nat) : List Char × Nat :=
  match fuel with
  | 0 => ([], bits)
  | fuel + 1 =>
      if 5 ≤ bits then
        let c := base32Alphabet.getD (buffer / 2 ^ (bits - 5) % 32) 'A'
        let r := drainGo fuel buffer (bits - 5)
        (c :: r.1, r.2)
      else ([], bits)

/-- The drain loop at its call sites: at most `bits` iterations can run
(each consumes five bits), so the fuel `bits` never runs out and
`drainGo` is exactly the `while` loop. -/
def drainB (buffer bits : Nat) : List Char × Nat := drainGo bits buffer bits

/-- The `for (const byte of bytes)` loop of the packing algorithm plus the
final leftover-symbol step.  `buffer = (buffer << 8) | byte` is modelled as
`(buffer * 256 + b) % 2 ^ 32` (JavaScript bitwise operators truncate to
32 bits), and the final `(buffer << (5 - bitsLeft)) & 31` as
`buffer * 2 ^ (5 - bits) % 2 ^ 32 % 32`. -/
def packGo : List Nat → Nat → Nat → List Char
  | [], buffer, bits =>
      if 0 < bits then
        [base32Alphabet.getD (buffer * 2 ^ (5 - bits) % 2 ^ 32 % 32) 'A']
      else []
  | b :: bs, buffer, bits =>
      let buf := (buffer * 256 + b) % 2 ^ 32
      let d := drainB buf (bits + 8)
      d.1 ++ packGo bs buf d.2

/-- The full 5-bit packing of a byte sequence into canonical Base32
symbols, exactly the loop duplicated in `hexToBase32` and
`wordsToBase32` (`result`, `buffer`, `bitsLeft` start at `''`, `0`, `0`). -/
def base32PackBytes (bs : List Nat) : String := ⟨packGo bs 0 0⟩

/-- The numeric value of one hexadecimal digit character, as read by
`parseInt(·, 16)` (call sites only pass valid digits; other characters
map to 0 here and are unreachable). -/
def hexDigitVal (c : Char) : Nat :=
  if 48 ≤ c.toNat ∧ c.toNat ≤ 57 then c.toNat - 48
  else if 65 ≤ c.toNat ∧ c.toNat ≤ 70 then c.toNat - 55
  else if 97 ≤ c.toNat ∧ c.toNat ≤ 102 then c.toNat - 87
  else 0

/-- The byte-pair loop of `hexToBase32`:
`for (i = 0; i < hex.length; i += 2) bytes.push(parseInt(hex.substr(i, 2), 16))`.
A trailing lone digit is read as a single-digit number, as `parseInt`
does. -/
def hexPairsBytes : List Char → List Nat
  | [] => []
  | [c] => [hexDigitVal c]
  | c1 :: c2 :: rest => (16 * hexDigitVal c1 + hexDigitVal c2) :: hexPairsBytes rest

/-- Models `hexToBase32` from `totp.ts`: hex pairs to bytes, then the 5-bit
packing loop. -/
def hexToBase32 (hex : String) : String :=
  base32PackBytes (hexPairsBytes hex.data)

/-- UTF-8 encoding of one code point, modelling `TextEncoder.encode`
byte-for-byte (Lean `Char`s exclude surrogates, as JavaScript strings
fed to `TextEncoder` effectively do). -/
def utf8EncodeCharBytes (n : Nat) : List Nat :=
  if n < 128 then [n]
  else if n < 2048 then [192 + n / 64, 128 + n % 64]
  else if n < 65536 then [224 + n / 4096, 128 + n / 64 % 64, 128 + n % 64]
  else [240 + n / 262144, 128 + n / 4096 % 64, 128 + n / 64 % 64, 128 + n % 64]

/-- Models `new TextEncoder().encode(s)` — the UTF-8 bytes of a string.
Modelled from the spec: `TextEncoder` is a platform API, specified in §4.1
as "encode it as UTF-8 bytes". -/
def utf8Encode (s : String) : List Nat :=
  s.data.flatMap (fun c => utf8EncodeCharBytes c.toNat)

/-- Models `wordsToBase32` from `totp.ts`: strip whitespace and upper-case; if
the result already matches the canonical regex return it, otherwise pack
its UTF-8 bytes with the 5-bit loop. -/
def wordsToBase32 (words : String) : String :=
  let combined := stripWSUpper words
  if matchesBase32 combined = true then combined
  else base32PackBytes (utf8Encode combined)

/-- Models `cleanTOTPSecret` from `totp.ts`: dispatch on the detected format.
The `hex` and `words` branches wrap their converters in `try`/`catch`,
but neither converter can throw, so the catch branches are dead and not
modelled. -/
def cleanTOTPSecret (secret : String) : String :=
  match detectSecretFormat secret with
  | .base32 => cleanInput secret
  | .hex => hexToBase32 (cleanInput secret)
  | .words => wordsToBase32 secret
  | .mixed =>
      let cleaned := cleanInput secret
      if matchesBase32 cleaned = true then cleaned
      else if isHexString cleaned = true then hexToBase32 cleaned
      else cleaned

/-! ## Validation and error messages (`totp.ts` and `constants.ts`) -/

/-- The `ERROR_MESSAGES.EMPTY_INPUT` constant `'请输入内容'`. -/
def EMPTY_INPUT_MSG : String := "请输入内容"

/-- The inline message `'密钥长度至少4位'` of `validateTOTPSecret`. -/
def SECRET_TOO_SHORT_MSG : String := "密钥长度至少4位"

/-- The shared `ValidationResult` interface: `isValid`, an optional
`errorMessage` and an optional `warningMessage`. -/
structure ValidationResult where
  isValid : Bool
  errorMessage : Option String
  warningMessage : Option String
deriving DecidableEq, Repr

/-- The per-format advisory message chosen by `validateTOTPSecret`. -/
def formatWarning : SecretFormat → String
  | .base32 => "标准Base32格式 ✓"
  | .hex => "十六进制格式，将自动转换"
  | .words => "多单词格式，将自动处理"
  | .mixed => "混合格式，将尝试自动处理"

/-- Models `validateTOTPSecret` from `totp.ts`: empty input fails with
`EMPTY_INPUT`, a trimmed length below 4 fails with the length message,
anything else is valid with a format advisory. -/
def validateTOTPSecret (secret : String) : ValidationResult :=
  if secret = "" ∨ (jsTrim secret).length = 0 then
    ⟨false, some EMPTY_INPUT_MSG, none⟩
  else if (jsTrim secret).length < 4 then
    ⟨false, some SECRET_TOO_SHORT_MSG, none⟩
  else
    ⟨true, none, some (formatWarning (detectSecretFormat secret))⟩

/-- Modelled from the spec: the §4.1 operation
`normalize(input) -> NormalizedSecret` is not one TypeScript function;
the UI layer runs `validateTOTPSecret` and, when it passes, consumes
`cleanTOTPSecret` (via `generateTOTP`).  This composition is the
normalise operation the spec describes. -/
def normalizeSecret (s : String) : Except String String :=
  match validateTOTPSecret s with
  | ⟨true, _, _⟩ => .ok (cleanTOTPSecret s)
  | ⟨false, e, _⟩ => .error (e.getD "")

/-- The `NormalizedSecret` invariant of §3: non-empty, every character
from the canonical alphabet or the pad `=`, pads only as a contiguous
suffix (equivalently: a block of alphabet characters followed by a block
of `=`). -/
def isNormalizedSecret (s : String) : Bool :=
  !(s.data.isEmpty) && (s.data.dropWhile isB32Char).all (fun c => c == '=')

/-! ## Base64 (`btoa` / `atob`)

Modelled from the spec (§6): "a Base64 string (standard alphabet, with
padding)".  `btoa`/`atob` are platform APIs; this is the standard codec on
byte lists. -/

/-- The standard Base64 alphabet. -/
def b64Alphabet : List Char :=
  "ABCDEFGHIJKLMNOPQRSTUVWXYZabcdefghijklmnopqrstuvwxyz0123456789+/".data

/-- The Base64 character for a 6-bit value. -/
def b64Chr (v : Nat) : Char := b64Alphabet.getD v 'A'

/-- The 6-bit value of a Base64 character, `none` for a character outside
the standard alphabet. -/
def b64Val (c : Char) : Option Nat :=
  let i := b64Alphabet.indexOf c
  if i < 64 then some i else none

/-- Base64-encode a byte list, three bytes to four characters, with `=`
padding on a final group of one or two bytes (what
`btoa(String.fromCharCode(...bytes))` produces). -/
def b64EncodeL : List Nat → List Char
  | [] => []
  | [a] => [b64Chr (a / 4), b64Chr (a % 4 * 16), '=', '=']
  | [a, b] => [b64Chr (a / 4), b64Chr (a % 4 * 16 + b / 16), b64Chr (b % 16 * 4), '=']
  | a :: b :: c :: rest =>
      b64Chr (a / 4) :: b64Chr (a % 4 * 16 + b / 16) ::
        b64Chr (b % 16 * 4 + c / 64) :: b64Chr (c % 64) :: b64EncodeL rest

/-- Models `btoa` on a byte list. -/
def base64Encode (bs : List Nat) : String := ⟨b64EncodeL bs⟩

/-- Base64-decode: four characters to three bytes, `=` padding allowed
only at the very end (as `atob` enforces); leftover bits of a final
short group are discarded, as in `atob`'s forgiving-base64. -/
def b64DecodeL : List Char → Option (List Nat)
  | [] => some []
  | c1 :: c2 :: c3 :: c4 :: rest =>
      match b64Val c1, b64Val c2 with
      | some v1, some v2 =>
          if c3 = '=' then
            if c4 = '=' ∧ rest = [] then some [v1 * 4 + v2 / 16] else none
          else
            match b64Val c3 with
            | some v3 =>
                if c4 = '=' then
                  if rest = [] then some [v1 * 4 + v2 / 16, v2 % 16 * 16 + v3 / 4]
                  else none
                else
                  match b64Val c4 with
                  | some v4 =>
                      (b64DecodeL rest).map
                        (fun tl => (v1 * 4 + v2 / 16) :: (v2 % 16 * 16 + v3 / 4) ::
                          (v3 % 4 * 64 + v4) :: tl)
                  | none => none
            | none => none
      | _, _ => none
  | _ => none

/-- Models `atob` on a string, as an optional byte list (`none` models the
`InvalidCharacterError` it throws, caught by the caller). -/
def base64Decode (s : String) : Option (List Nat) := b64DecodeL s.data

/-! ## The envelope codec (`crypto.ts`) -/

/-- Models `ERROR_MESSAGES.WEAK_PASSWORD`: `'密码长度至少8位'`
(interpolating `PASSWORD_MIN_LENGTH = 8`). -/
def WEAK_PASSWORD_MSG : String := "密码长度至少8位"

/-- The inline empty-plaintext message `'请输入要加密的内容'` of
`validateEncryptionInput`. -/
def EMPTY_PLAINTEXT_MSG : String := "请输入要加密的内容"

/-- The inline message `'请输入加密数据和密码'` of `decryptPayload` for a
missing envelope or password. -/
def EMPTY_DECRYPT_INPUT_MSG : String := "请输入加密数据和密码"

/-- Models `ERROR_MESSAGES.ENCRYPTION_FAILED`: `'加密失败，请检查输入'`. -/
def ENCRYPTION_FAILED_MSG : String := "加密失败，请检查输入"

/-- Models `ERROR_MESSAGES.DECRYPTION_FAILED`: `'解密失败，请检查密码'`. -/
def DECRYPTION_FAILED_MSG : String := "解密失败，请检查密码"

/-- Models `ERROR_MESSAGES.INVALID_ENCRYPTED_DATA`: `'无效的加密数据格式'`. -/
def INVALID_ENCRYPTED_DATA_MSG : String := "无效的加密数据格式"

/-- The `EncryptionResult` interface of `types/index.ts`. -/
structure EncryptionResult where
  encryptedData : String
  success : Bool
  error : Option String
deriving DecidableEq, Repr

/-- The `DecryptionResult` interface of `types/index.ts`. -/
structure DecryptionResult where
  plaintext : String
  success : Bool
  error : Option String
deriving DecidableEq, Repr

/-- Modelled from the spec: the external platform collaborators of the
envelope codec (§1, §6) at their interface boundary — `crypto.subtle`'s
PBKDF2 key derivation and AES-GCM authenticated cipher, and
`TextEncoder`/`TextDecoder`.  `deriveKey` is a function of
`(password, salt)`, hence deterministic as §4.2 step 3 requires; `aeadEnc`
appends a 16-byte tag (`encLen`); `aeadDec` inverts `aeadEnc` under the
same key and nonce (`decEnc`) and returns `none` on an authentication
failure (the promise rejection of `crypto.subtle.decrypt`); `utf8Dec` is
total, as the default non-fatal `TextDecoder` never throws. -/
structure WebCrypto where
  deriveKey : String → List Nat → List Nat
  aeadEnc : List Nat → List Nat → List Nat → List Nat
  aeadDec : List Nat → List Nat → List Nat → Option (List Nat)
  utf8Enc : String → List Nat
  utf8Dec : List Nat → String
  utf8Enc_lt : ∀ s, ∀ b ∈ utf8Enc s, b < 256
  utf8Dec_enc : ∀ s, utf8Dec (utf8Enc s) = s
  encLen : ∀ k iv m, (aeadEnc k iv m).length = m.length + 16
  enc_lt : ∀ k iv m, (∀ b ∈ m, b < 256) → ∀ b ∈ aeadEnc k iv m, b < 256
  decEnc : ∀ k iv m, aeadDec k iv (aeadEnc k iv m) = some m

/-- Models `validateEncryptionInput` from `crypto.ts`: empty or whitespace-only
plaintext fails, then a password below 8 characters fails. -/
def validateEncryptionInput (plaintext password : String) : ValidationResult :=
  if plaintext = "" ∨ (jsTrim plaintext).length = 0 then
    ⟨false, some EMPTY_PLAINTEXT_MSG, none⟩
  else if password = "" ∨ password.length < 8 then
    ⟨false, some WEAK_PASSWORD_MSG, none⟩
  else ⟨true, none, none⟩

/-- Models `encryptPayload` from `crypto.ts`.  The fresh random `salt` (16
bytes) and `iv` (12 bytes) produced by `crypto.getRandomValues` are
injected as arguments, the spec's §9 `SecureRandomSource` design note.
The `try`/`catch` cannot fire in this model because the platform
interface is total and `btoa` only receives bytes below 256. -/
def encryptPayload (P : WebCrypto) (plaintext password : String)
    (salt iv : List Nat) : EncryptionResult :=
  let v := validateEncryptionInput plaintext password
  if v.isValid = false then ⟨"", false, v.errorMessage⟩
  else
    let key := P.deriveKey password salt
    let ct := P.aeadEnc key iv (P.utf8Enc plaintext)
    ⟨base64Encode (salt ++ iv ++ ct), true, none⟩

/-- Models `decryptPayload` from `crypto.ts`: reject missing inputs, then a
short password, then a Base64 decoding failure, then a decoded length
below `SALT_LENGTH + IV_LENGTH + 16 = 44`; split off salt and IV, derive
the key, and attempt authenticated decryption — a rejection lands in the
`catch` with `DECRYPTION_FAILED`. -/
def decryptPayload (P : WebCrypto) (encryptedData password : String) :
    DecryptionResult :=
  if encryptedData = "" ∨ password = "" then
    ⟨"", false, some EMPTY_DECRYPT_INPUT_MSG⟩
  else if password.length < 8 then ⟨"", false, some WEAK_PASSWORD_MSG⟩
  else
    match base64Decode encryptedData with
    | none => ⟨"", false, some INVALID_ENCRYPTED_DATA_MSG⟩
    | some combined =>
        if combined.length < 16 + 12 + 16 then
          ⟨"", false, some INVALID_ENCRYPTED_DATA_MSG⟩
        else
          let salt := combined.take 16
          let iv := (combined.drop 16).take 12
          let ct := combined.drop 28
          let key := P.deriveKey password salt
          match P.aeadDec key iv ct with
          | some ptBytes => ⟨P.utf8Dec ptBytes, true, none⟩
          | none => ⟨"", false, some DECRYPTION_FAILED_MSG⟩

/-! ### A concrete platform instance for witnesses

A simple instance of the `WebCrypto` interface: a fixed-width three-byte
text codec and a cipher whose tag is sixteen zero bytes.  It satisfies
every interface contract and lets the theorems below be evaluated on
concrete inputs. -/

/-- Witness text encoder: each code point as four base-256 digits. -/
def w3Enc (s : String) : List Nat :=
  s.data.flatMap (fun c =>
    [c.toNat / 16777216 % 256, c.toNat / 65536 % 256, c.toNat / 256 % 256, c.toNat % 256])

/-- Witness text decoder, inverse of `w3Enc` on its image. -/
def w3DecL : List Nat → List Char
  | a :: b :: c :: d :: rest =>
      Char.ofNat (a * 16777216 + b * 65536 + c * 256 + d) :: w3DecL rest
  | _ => []

/-- Witness text decoder on strings. -/
def w3Dec (l : List Nat) : String := ⟨w3DecL l⟩

/-- Witness cipher: append sixteen zero bytes as the tag. -/
def wEnc (_k _iv m : List Nat) : List Nat := m ++ List.replicate 16 0

/-- Witness decipher: check the sixteen-zero-byte tag, strip it. -/
def wDec (_k _iv c : List Nat) : Option (List Nat) :=
  if 16 ≤ c.length ∧ c.drop (c.length - 16) = List.replicate 16 0 then
    some (c.take (c.length - 16))
  else none

/-- Witness key derivation: password code points alongside the salt. -/
def wKey (pw : String) (salt : List Nat) : List Nat :=
  pw.data.map Char.toNat ++ salt

/-- The concrete witness instance of the platform interface. -/
def wPlatform : WebCrypto where
  deriveKey := wKey
  aeadEnc := wEnc
  aeadDec := wDec
  utf8Enc := w3Enc
  utf8Dec := fun l => w3Dec l
  utf8Enc_lt := by
    intro s b hb
    simp only [w3Enc, List.mem_flatMap, List.mem_cons, List.not_mem_nil, or_false] at hb
    obtain ⟨c, -, hc⟩ := hb
    rcases hc with rfl | rfl | rfl | rfl <;> omega
  utf8Dec_enc := by
    intro s
    have h : ∀ cs : List Char, w3DecL (cs.flatMap fun c =>
        [c.toNat / 16777216 % 256, c.toNat / 65536 % 256, c.toNat / 256 % 256,
          c.toNat % 256]) = cs := by
      intro cs
      induction cs with
      | nil => rfl
      | cons c t ih =>
          rw [List.flatMap_cons]
          show Char.ofNat (c.toNat / 16777216 % 256 * 16777216 +
              c.toNat / 65536 % 256 * 65536 + c.toNat / 256 % 256 * 256 +
              c.toNat % 256) ::
            w3DecL (t.flatMap fun c => [c.toNat / 16777216 % 256, c.toNat / 65536 % 256,
              c.toNat / 256 % 256, c.toNat % 256]) = c :: t
          have hn : c.toNat < 4294967296 := UInt32.toNat_lt_size c.val
          have hsplit : c.toNat / 16777216 % 256 * 16777216 + c.toNat / 65536 % 256 * 65536 +
              c.toNat / 256 % 256 * 256 + c.toNat % 256 = c.toNat := by omega
          rw [hsplit, Char.ofNat_toNat, ih]
    show w3Dec (w3Enc s) = s
    cases s with
    | mk data => simpa [w3Enc, w3Dec] using congrArg String.mk (h data)
  encLen := by
    intro k iv m
    simp [wEnc]
  enc_lt := by
    intro k iv m hm b hb
    rcases List.mem_append.1 hb with h | h
    · exact hm b h
    · have := List.eq_of_mem_replicate h
      omega
  decEnc := by
    intro k iv m
    show wDec k iv (wEnc k iv m) = some m
    unfold wDec wEnc
    have hlen : (m ++ List.replicate 16 (0 : Nat)).length - 16 = m.length := by simp
    rw [if_pos]
    · rw [hlen, List.take_left]
    · refine ⟨by simp, ?_⟩
      rw [hlen, List.drop_left]

/-! ## The provisioning-URI parser (`parseOTPAuthURI` in `totp.ts`) -/

/-- A letter, the first character a URL scheme may have. -/
def isSchemeStartChar (n : Nat) : Bool :=
  (65 ≤ n && n ≤ 90) || (97 ≤ n && n ≤ 122)

/-- A character a URL scheme may continue with. -/
def isSchemeChar (n : Nat) : Bool :=
  isSchemeStartChar n || (48 ≤ n && n ≤ 57) || n == 43 || n == 45 || n == 46

/-- ASCII lower-casing, for the scheme normalisation the URL parser
performs. -/
def jsToLower (c : Char) : Char :=
  if 65 ≤ c.toNat && c.toNat ≤ 90 then Char.ofNat (c.toNat + 32) else c

/-- The result of `new URL(...)`, restricted to the four components
`parseOTPAuthURI` reads. -/
structure JSURL where
  protocol : String
  hostname : String
  pathname : String
  search : String
deriving DecidableEq, Repr

/-- Modelled from the spec: the platform's WHATWG `new URL(...)` parser at
the interface boundary §4.1 needs — scheme (lower-cased, with the
trailing colon), authority after `//`, path, and query string.  A string
with no colon, an empty scheme, or a scheme with illegal characters is
not a well-formed URI (`none`, the constructor throw).  Percent-decoding
is not modelled; the claims do not depend on it. -/
def parseURL (s : String) : Option JSURL :=
  let cs := s.data
  let scheme := cs.takeWhile (fun c => !(c == ':'))
  if scheme.length = cs.length then none
  else if scheme.isEmpty then none
  else if !((scheme.headD 'a').toNat |> isSchemeStartChar) ||
      !(scheme.all (fun c => isSchemeChar c.toNat)) then none
  else
    let rest := cs.drop (scheme.length + 1)
    match rest with
    | '/' :: '/' :: r2 =>
        let host := r2.takeWhile (fun c => !(c == '/') && !(c == '?') && !(c == '#'))
        let r3 := r2.drop host.length
        let path := r3.takeWhile (fun c => !(c == '?') && !(c == '#'))
        let qs := (r3.drop path.length).takeWhile (fun c => !(c == '#'))
        some ⟨⟨scheme.map jsToLower⟩ ++ ":", ⟨host⟩, ⟨path⟩, ⟨qs⟩⟩
    | _ =>
        let path := rest.takeWhile (fun c => !(c == '?') && !(c == '#'))
        let qs := (rest.drop path.length).takeWhile (fun c => !(c == '#'))
        some ⟨⟨scheme.map jsToLower⟩ ++ ":", "", ⟨path⟩, ⟨qs⟩⟩

/-- One `name=value` query pair, as read by `URLSearchParams`: the part
before the first `=` is the name, the rest the value (empty when no `=`). -/
def queryPairName (pair : List Char) : List Char :=
  pair.takeWhile (fun c => !(c == '='))

/-- The value of one query pair (see `queryPairName`). -/
def queryPairValue (pair : List Char) : List Char :=
  if (queryPairName pair).length = pair.length then []
  else pair.drop ((queryPairName pair).length + 1)

/-- First match of a key in a `&`-separated pair list. -/
def lookupQuery (key : String) : List (List Char) → Option String
  | [] => none
  | pair :: rest =>
      if queryPairName pair = key.data then some ⟨queryPairValue pair⟩
      else lookupQuery key rest

/-- Models `new URLSearchParams(url.search).get(key)`.  Modelled from the spec:
`URLSearchParams` is a platform API; a leading `?` is dropped, pairs are
separated by `&`, and the first pair with the given name wins
(percent-decoding not modelled). -/
def getParam (search key : String) : Option String :=
  let q := match search.data with
    | '?' :: t => t
    | t => t
  lookupQuery key (splitOnCharAux '&' q [])

/-- JavaScript's `x || undefined` on a nullable string: `null` and the
empty string both become `undefined`. -/
def jsOrUndef : Option String → Option String
  | some "" => none
  | none => none
  | some v => some v

/-- Models `parseInt` restricted to the non-negative decimal numerals the
`digits`/`period` parameters carry: the value of the leading digit run,
`none` when there is none (`NaN`). -/
def jsParseIntNat (s : String) : Option Nat :=
  let ds := s.data.takeWhile (fun c => 48 ≤ c.toNat && c.toNat ≤ 57)
  if ds.isEmpty then none
  else some (ds.foldl (fun a c => a * 10 + (c.toNat - 48)) 0)

/-- Models `url.pathname.split('/').filter(Boolean)[0] || undefined`: the first
non-empty path segment. -/
def firstPathSegment (pathname : String) : Option String :=
  ((splitOnCharAux '/' pathname.data []).filter (fun t => !t.isEmpty)).head?.map
    (fun t => (⟨t⟩ : String))

/-- The object `parseOTPAuthURI` returns on success. -/
structure OTPAuthParams where
  secret : Option String
  issuer : Option String
  label : Option String
  algorithm : Option String
  digits : Option Nat
  period : Option Nat
deriving DecidableEq, Repr

/-- The `digits`/`period` field logic
`params.get(k) ? parseInt(params.get(k)!) : undefined` (a `NaN` from
`parseInt` and an absent field are conflated into `none`). -/
def numParam (search key : String) : Option Nat :=
  match getParam search key with
  | none => none
  | some "" => none
  | some v => jsParseIntNat v

/-- Models `parseOTPAuthURI` from `totp.ts`: parse the URI (the `try`/`catch`
returns `null` when the `URL` constructor throws), require protocol
`otpauth:` and hostname `totp`, then extract the fields — note the
`secret` query parameter is *not* required for success. -/
def parseOTPAuthURI (uri : String) : Option OTPAuthParams :=
  match parseURL uri with
  | none => none
  | some url =>
      if url.protocol ≠ "otpauth:" ∨ url.hostname ≠ "totp" then none
      else some
        { secret := jsOrUndef (getParam url.search "secret")
          issuer := jsOrUndef (getParam url.search "issuer")
          label := firstPathSegment url.pathname
          algorithm := jsOrUndef (getParam url.search "algorithm")
          digits := numParam url.search "digits"
          period := numParam url.search "period" }

/-- The value of a canonical-alphabet symbol string read as base-32
digits, most significant first (used to state that the packing is exactly
the MSB-first 5-bit slicing of the byte stream). -/
def b32Value (cs : List Char) : Nat :=
  cs.foldl (fun acc c => acc * 32 + base32Alphabet.indexOf c) 0

/-- The value of a byte string read as base-256 digits, most significant
first. -/
def bytesValue (bs : List Nat) : Nat :=
  bs.foldl (fun acc b => acc * 256 + b) 0

/-! # Theorems -/

theorem string_eq_empty_iff (s : String) : s = "" ↔ s.data = [] := by
  cases s with
  | mk l => simp [String.ext_iff]

theorem string_length_zero_iff (s : String) : s.length = 0 ↔ s = "" := by
  cases s with
  | mk l => simp [String.length, string_eq_empty_iff]

/-! ## Totality of the envelope codec at its public interface (claim C10) -/

/-- C10: `encryptPayload` and `decryptPayload` are total at the public
interface: on every input (the thrown exceptions of the platform calls
being modelled as caught, per the source's top-level `try`/`catch`) each
returns a result record whose `success` flag is set with no error
message, or cleared together with an error message (and an empty
payload). -/
theorem c10_totality (P : WebCrypto) (pt pw ed dpw : String) (salt iv : List Nat) :
    (((encryptPayload P pt pw salt iv).success = true ∧
        (encryptPayload P pt pw salt iv).error = none) ∨
      ((encryptPayload P pt pw salt iv).success = false ∧
        (encryptPayload P pt pw salt iv).encryptedData = "" ∧
        ∃ m, (encryptPayload P pt pw salt iv).error = some m)) ∧
    (((decryptPayload P ed dpw).success = true ∧
        (decryptPayload P ed dpw).error = none) ∨
      ((decryptPayload P ed dpw).success = false ∧
        (decryptPayload P ed dpw).plaintext = "" ∧
        ∃ m, (decryptPayload P ed dpw).error = some m)) := by
  constructor
  · unfold encryptPayload validateEncryptionInput
    by_cases h1 : pt = "" ∨ (jsTrim pt).length = 0
    · simp [h1]
    · by_cases h2 : pw = "" ∨ pw.length < 8
      · simp [h1, h2]
      · simp [h1, h2]
  · unfold decryptPayload
    by_cases h1 : ed = "" ∨ dpw = ""
    · simp [h1]
    · by_cases h2 : dpw.length < 8
      · simp [h1, h2]
      · simp only [h1, h2, if_false]
        split
        · simp
        · next combined heq =>
            by_cases h3 : combined.length < 16 + 12 + 16
            · simp [h3]
            · rw [if_neg h3]
              split <;> simp

/-! ## Truncated envelopes (claim C7) -/

/-- C7 counterexample to the claim as stated: the empty string is valid
Base64 (it decodes to zero bytes, fewer than 44) and the password is long
enough, yet `decryptPayload` fails with the missing-input message, not
the truncation message. -/
theorem c7_counterexample :
    base64Decode "" = some [] ∧ 8 ≤ "password123".length ∧
      decryptPayload wPlatform "" "password123" =
        ⟨"", false, some EMPTY_DECRYPT_INPUT_MSG⟩ ∧
      EMPTY_DECRYPT_INPUT_MSG ≠ INVALID_ENCRYPTED_DATA_MSG := by
  refine ⟨by decide, by decide, by decide, by decide⟩

/-- C7 (amended to non-empty envelope strings): on every *non-empty*
envelope string that is valid Base64 with a decoded length below 44
bytes, and every password of length at least 8, `decryptPayload` fails
with the truncation error (`INVALID_ENCRYPTED_DATA`).  The result is the
same for every platform instance `P`, so no key derivation or decryption
attempt can influence it. -/
theorem c7_truncated (P : WebCrypto) (s pw : String) (bs : List Nat)
    (hs : s ≠ "") (hdec : base64Decode s = some bs) (hlen : bs.length < 44)
    (hpw : 8 ≤ pw.length) :
    decryptPayload P s pw = ⟨"", false, some INVALID_ENCRYPTED_DATA_MSG⟩ := by
  have hpw0 : pw ≠ "" := by
    intro h
    rw [h] at hpw
    exact absurd hpw (by decide)
  unfold decryptPayload
  rw [if_neg (by tauto), if_neg (by omega)]
  split
  · next heq => rw [hdec] at heq
  · next combined heq =>
      rw [hdec] at heq
      injection heq with h
      subst h
      rw [if_pos (by omega)]

/-- C7 witness: a concrete one-byte envelope. -/
theorem c7_truncated_witness :
    decryptPayload wPlatform "AA==" "password123" =
      ⟨"", false, some INVALID_ENCRYPTED_DATA_MSG⟩ :=
  c7_truncated wPlatform "AA==" "password123" [0] (by decide) (by decide)
    (by decide) (by decide)

/-! ## Format detection (claim C5) -/

theorem splitOnCharAux_length_pos (sep : Char) (cs acc : List Char) :
    1 ≤ (splitOnCharAux sep cs acc).length := by
  induction cs generalizing acc with
  | nil => simp [splitOnCharAux]
  | cons c t ih =>
      unfold splitOnCharAux
      by_cases hc : c = sep
      · simp only [hc, beq_self_eq_true, if_true, List.length_cons]
        omega
      · have hb : (c == sep) = false := by simp [hc]
        simpa [hb] using ih (c :: acc)

theorem splitOnCharAux_length_of_contains (sep : Char) :
    ∀ cs acc : List Char, cs.contains sep = true →
      2 ≤ (splitOnCharAux sep cs acc).length
  | [], acc, h => by simp at h
  | c :: t, acc, h => by
      by_cases hc : c = sep
      · have := splitOnCharAux_length_pos sep t []
        unfold splitOnCharAux
        simp only [hc, beq_self_eq_true, if_true, List.length_cons]
        omega
      · have ht : t.contains sep = true := by
          simp only [List.contains_cons, Bool.or_eq_true, beq_iff_eq] at h
          rcases h with h | h
          · exact absurd h.symm hc
          · exact h
        have hb : (c == sep) = false := by simp [hc]
        have := splitOnCharAux_length_of_contains sep t (c :: acc) ht
        unfold splitOnCharAux
        simpa [hb]

theorem contains_space_split (input : String)
    (h : input.data.contains ' ' = true) : 1 < (splitOnSpace input).length := by
  have := splitOnCharAux_length_of_contains ' ' input.data [] h
  unfold splitOnSpace
  omega

theorem detect_eq_base32_iff (input : String) :
    detectSecretFormat input = .base32 ↔ matchesBase32 (cleanInput input) = true := by
  dsimp only [detectSecretFormat]
  by_cases hb : matchesBase32 (cleanInput input) = true
  · rw [if_pos hb]
    simp [hb]
  · rw [if_neg hb]
    constructor
    · intro h
      split at h
      · exact absurd h (by decide)
      · split at h
        · exact absurd h (by decide)
        · exact absurd h (by decide)
    · intro h
      exact absurd h hb

theorem detect_eq_hex_iff (input : String) :
    detectSecretFormat input = .hex ↔
      (matchesBase32 (cleanInput input) = false ∧
        isHexString (cleanInput input) = true) := by
  dsimp only [detectSecretFormat]
  by_cases hb : matchesBase32 (cleanInput input) = true
  · rw [if_pos hb]
    simp [hb]
  · rw [if_neg hb]
    have hb' : matchesBase32 (cleanInput input) = false := by
      simpa using hb
    by_cases hh : isHexString (cleanInput input) = true
    · rw [if_pos hh]
      simp [hb', hh]
    · rw [if_neg hh]
      have hh' : isHexString (cleanInput input) = false := by
        simpa using hh
      constructor
      · intro h
        split at h
        · exact absurd h (by decide)
        · exact absurd h (by decide)
      · intro h
        rw [h.2] at hh'
        cases hh'

theorem detect_eq_words_iff (input : String) :
    detectSecretFormat input = .words ↔
      (matchesBase32 (cleanInput input) = false ∧
        isHexString (cleanInput input) = false ∧
        input.data.contains ' ' = true) := by
  dsimp only [detectSecretFormat]
  by_cases hb : matchesBase32 (cleanInput input) = true
  · rw [if_pos hb]
    simp [hb]
  · rw [if_neg hb]
    have hb' : matchesBase32 (cleanInput input) = false := by
      simpa using hb
    by_cases hh : isHexString (cleanInput input) = true
    · rw [if_pos hh]
      simp [hh]
    · rw [if_neg hh]
      have hh' : isHexString (cleanInput input) = false := by
        simpa using hh
      by_cases hw : input.data.contains ' ' = true
      · rw [if_pos ⟨hw, contains_space_split input hw⟩]
        constructor
        · intro _
          exact ⟨hb', hh', hw⟩
        · intro _
          rfl
      · have hw' : input.data.contains ' ' = false := by
          simpa using hw
        rw [if_neg (by rw [hw']; simp)]
        constructor
        · intro h
          exact absurd h (by decide)
        · intro h
          rw [h.2.2] at hw'
          cases hw'

theorem detect_eq_mixed_iff (input : String) :
    detectSecretFormat input = .mixed ↔
      (matchesBase32 (cleanInput input) = false ∧
        isHexString (cleanInput input) = false ∧
        input.data.contains ' ' = false) := by
  dsimp only [detectSecretFormat]
  by_cases hb : matchesBase32 (cleanInput input) = true
  · rw [if_pos hb]
    simp [hb]
  · rw [if_neg hb]
    have hb' : matchesBase32 (cleanInput input) = false := by
      simpa using hb
    by_cases hh : isHexString (cleanInput input) = true
    · rw [if_pos hh]
      simp [hh]
    · rw [if_neg hh]
      have hh' : isHexString (cleanInput input) = false := by
        simpa using hh
      by_cases hw : input.data.contains ' ' = true
      · rw [if_pos ⟨hw, contains_space_split input hw⟩]
        constructor
        · intro h
          exact absurd h (by decide)
        · intro h
          rw [h.2.2] at hw
          cases hw
      · have hw' : input.data.contains ' ' = false := by
          simpa using hw
        rw [if_neg (by rw [hw']; simp)]
        constructor
        · intro _
          exact ⟨hb', hh', hw'⟩
        · intro _
          rfl


/-- C5 counterexample to the claim as stated: `"! "` contains a space but
has only one non-empty token, yet `detectSecretFormat` classifies it as a
word phrase. -/
theorem c5_counterexample :
    detectSecretFormat "! " = SecretFormat.words ∧
      ((splitOnSpace "! ").filter (fun t => !t.isEmpty)).length < 2 := by
  constructor
  · decide
  · decide

/-- C5 (amended): `detectSecretFormat` applies the fixed precedence
Canonical before Hexadecimal before WordPhrase before Ambiguous, testing
the cleaned form for the first two; it returns `words` exactly when the
cleaned form matches neither and the *original* input contains a space
character — two or more non-empty tokens are not required. -/
theorem c5_detect_characterization (input : String) :
    (detectSecretFormat input = .base32 ↔ matchesBase32 (cleanInput input) = true) ∧
    (detectSecretFormat input = .hex ↔
      (matchesBase32 (cleanInput input) = false ∧
        isHexString (cleanInput input) = true)) ∧
    (detectSecretFormat input = .words ↔
      (matchesBase32 (cleanInput input) = false ∧
        isHexString (cleanInput input) = false ∧
        input.data.contains ' ' = true)) ∧
    (detectSecretFormat input = .mixed ↔
      (matchesBase32 (cleanInput input) = false ∧
        isHexString (cleanInput input) = false ∧
        input.data.contains ' ' = false)) :=
  ⟨detect_eq_base32_iff input, detect_eq_hex_iff input,
    detect_eq_words_iff input, detect_eq_mixed_iff input⟩

/-! ## Failure behaviour of normalisation (claim C6) -/

/-- C6 counterexample to the claim as stated: the input `"----"` cleans
to the empty string, yet normalisation succeeds (returning the empty
string) because its trimmed length is 4; and `"AB"` cleans to a
*non-empty* string yet fails.  So "fails exactly when empty or cleaned
to zero characters" is wrong in both directions. -/
theorem c6_counterexample :
    cleanInput "----" = "" ∧ normalizeSecret "----" = .ok "" ∧
      cleanInput "AB" = "AB" ∧
      normalizeSecret "AB" = .error SECRET_TOO_SHORT_MSG := by
  refine ⟨by decide, rfl, by decide, rfl⟩

/-- C6 (amended): normalisation fails exactly when the *trimmed* input
has fewer than 4 characters — with the `EMPTY_INPUT` message when the
trimmed input is empty and the length message otherwise; an input of
trimmed length at least 4 always succeeds, even when its cleaned form is
empty. -/
theorem c6_normalize_fail_iff (s : String) :
    ((jsTrim s).length = 0 → normalizeSecret s = .error EMPTY_INPUT_MSG) ∧
    (0 < (jsTrim s).length → (jsTrim s).length < 4 →
      normalizeSecret s = .error SECRET_TOO_SHORT_MSG) ∧
    (4 ≤ (jsTrim s).length → normalizeSecret s = .ok (cleanTOTPSecret s)) ∧
    ((∃ m, normalizeSecret s = .error m) ↔ (jsTrim s).length < 4) := by
  by_cases h0 : s = "" ∨ (jsTrim s).length = 0
  · have hz : (jsTrim s).length = 0 := by
      rcases h0 with rfl | h
      · decide
      · exact h
    have hval : validateTOTPSecret s = ⟨false, some EMPTY_INPUT_MSG, none⟩ := by
      unfold validateTOTPSecret
      rw [if_pos h0]
    refine ⟨fun _ => by simp [normalizeSecret, hval], fun h _ => by omega,
      fun h => by omega, ?_⟩
    constructor
    · intro _
      omega
    · intro _
      exact ⟨EMPTY_INPUT_MSG, by simp [normalizeSecret, hval]⟩
  · by_cases h1 : (jsTrim s).length < 4
    · have hval : validateTOTPSecret s = ⟨false, some SECRET_TOO_SHORT_MSG, none⟩ := by
        unfold validateTOTPSecret
        rw [if_neg h0, if_pos h1]
      have hz : (jsTrim s).length ≠ 0 := by tauto
      refine ⟨fun h => absurd h hz, fun _ _ => by simp [normalizeSecret, hval],
        fun h => by omega, ?_⟩
      constructor
      · intro _
        omega
      · intro _
        exact ⟨SECRET_TOO_SHORT_MSG, by simp [normalizeSecret, hval]⟩
    · have hval : validateTOTPSecret s =
          ⟨true, none, some (formatWarning (detectSecretFormat s))⟩ := by
        unfold validateTOTPSecret
        rw [if_neg h0, if_neg h1]
      have hz : (jsTrim s).length ≠ 0 := by tauto
      refine ⟨fun h => absurd h hz, fun _ h => absurd h h1,
        fun _ => by simp [normalizeSecret, hval], ?_⟩
      constructor
      · rintro ⟨m, hm⟩
        simp [normalizeSecret, hval] at hm
      · intro h
        exact absurd h h1

/-- C6 witness: a valid four-character canonical secret. -/
theorem c6_normalize_fail_iff_witness :
    normalizeSecret "JBSWY3DP" = .ok (cleanTOTPSecret "JBSWY3DP") :=
  (c6_normalize_fail_iff "JBSWY3DP").2.2.1 (by decide)

/-! ## The `mixed` fallback (claim C3) -/

theorem detect_mixed_conditions {s : String}
    (h : detectSecretFormat s = .mixed) :
    matchesBase32 (cleanInput s) = false ∧ isHexString (cleanInput s) = false :=
  ⟨((detect_eq_mixed_iff s).1 h).1, ((detect_eq_mixed_iff s).1 h).2.1⟩

/-- C3 counterexample to the claim as stated: `"!"` is classified
`mixed`, and its claimed raw-text packing is `"EE"`, but `cleanTOTPSecret`
returns the cleaned string `"!"` unchanged — the raw-text 5-bit packing
fallback is never applied on the `mixed` path. -/
theorem c3_counterexample :
    detectSecretFormat "!" = SecretFormat.mixed ∧
      cleanTOTPSecret "!" = "!" ∧
      base32PackBytes (utf8Encode (cleanInput "!")) = "EE" ∧
      ("!" : String) ≠ "EE" := by
  refine ⟨by decide, by decide, by decide, by decide⟩

/-- C3 (amended): on every input classified `mixed`, `cleanTOTPSecret`
returns the cleaned input unchanged.  The canonical-alphabet and
hexadecimal re-interpretations attempted first in this branch can never
succeed (detection already ruled both out on the same cleaned string),
and no raw-text packing fallback exists on this path. -/
theorem c3_mixed_fallback (s : String) (h : detectSecretFormat s = .mixed) :
    cleanTOTPSecret s = cleanInput s := by
  obtain ⟨hb, hh⟩ := detect_mixed_conditions h
  unfold cleanTOTPSecret
  rw [h]
  simp [hb, hh]

/-- C3 witness: the concrete `mixed` input `"*x*"`. -/
theorem c3_mixed_fallback_witness :
    cleanTOTPSecret "*x*" = cleanInput "*x*" :=
  c3_mixed_fallback "*x*" (by decide)

/-! ## The `NormalizedSecret` invariant (claim C2) -/

theorem b32_getD_mem : ∀ v : Nat, v < 32 → base32Alphabet.getD v 'A' ∈ base32Alphabet := by
  decide

theorem b32_mem_isB32 : ∀ c ∈ base32Alphabet, isB32Char c = true := by
  decide

theorem drainGo_mem :
    ∀ (fuel buffer bits : Nat) (c : Char), c ∈ (drainGo fuel buffer bits).1 →
      c ∈ base32Alphabet
  | 0, buffer, bits, c, h => by simp [drainGo] at h
  | fuel + 1, buffer, bits, c, h => by
      unfold drainGo at h
      by_cases h5 : 5 ≤ bits
      · rw [if_pos h5] at h
        simp only [List.mem_cons] at h
        rcases h with rfl | h
        · exact b32_getD_mem _ (Nat.mod_lt _ (by norm_num))
        · exact drainGo_mem fuel buffer (bits - 5) c h
      · rw [if_neg h5] at h
        simp at h

theorem packGo_mem :
    ∀ (bs : List Nat) (buffer bits : Nat) (c : Char), c ∈ packGo bs buffer bits →
      c ∈ base32Alphabet
  | [], buffer, bits, c, h => by
      unfold packGo at h
      by_cases h0 : 0 < bits
      · rw [if_pos h0] at h
        simp only [List.mem_singleton] at h
        subst h
        exact b32_getD_mem _ (Nat.mod_lt _ (by norm_num))
      · rw [if_neg h0] at h
        simp at h
  | b :: bs, buffer, bits, c, h => by
      unfold packGo at h
      rcases List.mem_append.1 h with h | h
      · exact drainGo_mem _ _ _ c h
      · exact packGo_mem bs _ _ c h

theorem drainGo_not_nil (fuel buffer bits : Nat) (h5 : 5 ≤ bits) (hf : 1 ≤ fuel) :
    (drainGo fuel buffer bits).1 ≠ [] := by
  match fuel with
  | 0 => omega
  | fuel + 1 =>
      unfold drainGo
      rw [if_pos h5]
      simp

theorem packGo_cons_not_nil (b : Nat) (bs : List Nat) (buffer bits : Nat) :
    packGo (b :: bs) buffer bits ≠ [] := by
  unfold packGo
  intro h
  rcases List.append_eq_nil.1 h with ⟨h1, -⟩
  exact drainGo_not_nil _ _ _ (by omega) (by omega) h1

theorem all_b32_isNormalized (cs : List Char) (hne : cs ≠ [])
    (hmem : ∀ c ∈ cs, isB32Char c = true) :
    isNormalizedSecret ⟨cs⟩ = true := by
  unfold isNormalizedSecret
  have hdrop : cs.dropWhile isB32Char = [] := List.dropWhile_eq_nil_iff.2 hmem
  simp [hne, hdrop]

theorem pack_isNormalized (bs : List Nat) (h : bs ≠ []) :
    isNormalizedSecret (base32PackBytes bs) = true := by
  match bs with
  | [] => exact absurd rfl h
  | b :: bs =>
      apply all_b32_isNormalized
      · exact packGo_cons_not_nil b bs 0 0
      · intro c hc
        exact b32_mem_isB32 c (packGo_mem _ _ _ c hc)

theorem matchesBase32_isNormalized (t : String) (h : matchesBase32 t = true) :
    isNormalizedSecret t = true := by
  unfold matchesBase32 at h
  rw [Bool.and_eq_true] at h
  obtain ⟨h1, h2⟩ := h
  have hne : t.data.isEmpty = false := by
    cases hd : t.data with
    | nil => rw [hd] at h1; simp at h1
    | cons c cs => simp [hd]
  unfold isNormalizedSecret
  simp [hne, h2]

theorem hexPairsBytes_ne_nil (cs : List Char) (h : cs ≠ []) :
    hexPairsBytes cs ≠ [] := by
  match cs with
  | [] => exact absurd rfl h
  | [c] => simp [hexPairsBytes]
  | c1 :: c2 :: rest => simp [hexPairsBytes]

theorem utf8EncodeCharBytes_ne_nil (n : Nat) : utf8EncodeCharBytes n ≠ [] := by
  unfold utf8EncodeCharBytes
  split
  · simp
  · split
    · simp
    · split
      · simp
      · simp

theorem utf8Encode_ne_nil (s : String) (h : s ≠ "") : utf8Encode s ≠ [] := by
  have hd : s.data ≠ [] := by
    intro hdata
    exact h ((string_eq_empty_iff s).2 hdata)
  match hs : s.data with
  | [] => exact absurd hs hd
  | c :: cs =>
      unfold utf8Encode
      rw [hs, List.flatMap_cons]
      intro hnil
      rcases List.append_eq_nil.1 hnil with ⟨h1, -⟩
      exact utf8EncodeCharBytes_ne_nil _ h1

/-- C2 counterexample to the claim as stated: `"!!"` is classified
`mixed` and `cleanTOTPSecret` returns it unchanged, a non-canonical
output breaking the claimed alphabet invariant. -/
theorem c2_counterexample :
    cleanTOTPSecret "!!" = "!!" ∧
      isNormalizedSecret (cleanTOTPSecret "!!") = false := by
  refine ⟨by decide, by decide⟩

/-- C2 (amended): the `NormalizedSecret` invariant — non-empty, canonical
alphabet plus optional contiguous `=` suffix — holds for the output of
`cleanTOTPSecret` whenever the input is detected `base32` or `hex`, and
on the `words` path whenever the whitespace-stripped input is non-empty;
a `mixed` input (or an all-whitespace `words` input) can violate it,
because the `mixed` branch returns the cleaned string unchanged. -/
theorem c2_invariant (s : String)
    (h : detectSecretFormat s = .base32 ∨ detectSecretFormat s = .hex ∨
      (detectSecretFormat s = .words ∧ stripWSUpper s ≠ "")) :
    isNormalizedSecret (cleanTOTPSecret s) = true := by
  rcases h with h | h | ⟨h, hc⟩
  · have hb : matchesBase32 (cleanInput s) = true := (detect_eq_base32_iff s).1 h
    unfold cleanTOTPSecret
    rw [h]
    exact matchesBase32_isNormalized _ hb
  · have hh : isHexString (cleanInput s) = true := ((detect_eq_hex_iff s).1 h).2
    unfold cleanTOTPSecret
    rw [h]
    unfold hexToBase32
    apply pack_isNormalized
    apply hexPairsBytes_ne_nil
    unfold isHexString at hh
    rw [Bool.and_eq_true] at hh
    intro hdata
    rw [hdata] at hh
    simp at hh
  · unfold cleanTOTPSecret
    rw [h]
    unfold wordsToBase32
    by_cases hm : matchesBase32 (stripWSUpper s) = true
    · rw [if_pos hm]
      exact matchesBase32_isNormalized _ hm
    · rw [if_neg hm]
      exact pack_isNormalized _ (utf8Encode_ne_nil _ hc)

/-- C2 witness: a hexadecimal input. -/
theorem c2_invariant_witness :
    isNormalizedSecret (cleanTOTPSecret "48656C6C") = true :=
  c2_invariant "48656C6C" (Or.inr (Or.inl (by decide)))

/-! ## The provisioning-URI parser (claim C9) -/

/-- C9 counterexample to the claim as stated: a `totp` provisioning URI
with *no* `secret` query parameter does not fail — `parseOTPAuthURI`
returns a record with the `secret` field absent. -/
theorem c9_counterexample :
    parseOTPAuthURI "otpauth://totp/Example" =
      some ⟨none, none, some "Example", none, none, none⟩ ∧
      parseOTPAuthURI "otpauth://totp/Example" ≠ none := by
  refine ⟨by decide, by decide⟩

/-- C9 (amended): `parseOTPAuthURI` fails (returns `null`) exactly when
the string is not a well-formed URI, its scheme is not `otpauth`, or its
authority is not `totp`; a missing `secret` parameter does *not* cause
failure.  On success it returns the `secret`/`issuer`/`algorithm` query
parameters (empty ones dropped), the numeric `digits`/`period`
parameters, and the label taken from the first non-empty path segment. -/
theorem c9_parse_spec (uri : String) :
    (parseOTPAuthURI uri = none ↔
      (parseURL uri = none ∨
        ∃ u, parseURL uri = some u ∧
          (u.protocol ≠ "otpauth:" ∨ u.hostname ≠ "totp"))) ∧
    (∀ u, parseURL uri = some u → u.protocol = "otpauth:" → u.hostname = "totp" →
      parseOTPAuthURI uri = some
        { secret := jsOrUndef (getParam u.search "secret")
          issuer := jsOrUndef (getParam u.search "issuer")
          label := firstPathSegment u.pathname
          algorithm := jsOrUndef (getParam u.search "algorithm")
          digits := numParam u.search "digits"
          period := numParam u.search "period" }) := by
  unfold parseOTPAuthURI
  cases hu : parseURL uri with
  | none =>
      refine ⟨by simp, ?_⟩
      intro u h
      cases h
  | some u =>
      dsimp only
      by_cases hcond : u.protocol ≠ "otpauth:" ∨ u.hostname ≠ "totp"
      · rw [if_pos hcond]
        refine ⟨⟨fun _ => Or.inr ⟨u, rfl, hcond⟩, fun _ => rfl⟩, ?_⟩
        intro u' h hp hh
        injection h with h'
        subst h'
        rcases hcond with hc | hc
        · exact absurd hp hc
        · exact absurd hh hc
      · rw [if_neg hcond]
        push_neg at hcond
        constructor
        · constructor
          · intro h
            cases h
          · rintro (h | ⟨u', hu', hne⟩)
            · cases h
            · injection hu' with h'
              subst h'
              rcases hne with hne | hne
              · exact absurd hcond.1 hne
              · exact absurd hcond.2 hne
        · intro u' h hp hh
          injection h with h'
          subst h'
          rfl

/-- C9 witness: the spec's concrete scenario 6. -/
theorem c9_parse_spec_witness :
    parseOTPAuthURI
        "otpauth://totp/Example:user@example.com?secret=JBSWY3DPEHPK3PXP&issuer=Example" =
      some ⟨some "JBSWY3DPEHPK3PXP", some "Example",
        some "Example:user@example.com", none, none, none⟩ :=
  (c9_parse_spec
    "otpauth://totp/Example:user@example.com?secret=JBSWY3DPEHPK3PXP&issuer=Example").2
    ⟨"otpauth:", "totp", "/Example:user@example.com",
      "?secret=JBSWY3DPEHPK3PXP&issuer=Example"⟩
    (by decide) rfl rfl

/-! ## Uniform authentication failure (claim C8) -/

theorem decrypt_auth_fail (P : WebCrypto) (e pw : String) (bs : List Nat)
    (hd : base64Decode e = some bs) (hl : 44 ≤ bs.length) (hp : 8 ≤ pw.length)
    (ha : P.aeadDec (P.deriveKey pw (bs.take 16)) ((bs.drop 16).take 12)
      (bs.drop 28) = none) :
    decryptPayload P e pw = ⟨"", false, some DECRYPTION_FAILED_MSG⟩ := by
  have he : e ≠ "" := by
    intro h
    subst h
    rw [show base64Decode "" = some [] from rfl] at hd
    injection hd with h'
    rw [← h'] at hl
    simp at hl
  have hpw0 : pw ≠ "" := by
    intro h
    rw [h] at hp
    exact absurd hp (by decide)
  unfold decryptPayload
  rw [if_neg (by tauto), if_neg (by omega)]
  split
  · next heq =>
      rw [hd] at heq
      exact Option.noConfusion heq
  · next combined heq =>
      rw [hd] at heq
      injection heq with h'
      subst h'
      rw [if_neg (by omega)]
      dsimp only
      split
      · next pt heq2 =>
          rw [ha] at heq2
          exact Option.noConfusion heq2
      · rfl

/-- C8: whenever authenticated decryption rejects (a wrong password or a
corrupted/tampered envelope — the hypothesis `P.aeadDec ... = none`
covers both), `decryptPayload` produces one fixed result, identical
across any two such failing runs: empty plaintext, `success := false`,
and the single `DECRYPTION_FAILED` message.  In particular the
externally visible error cannot distinguish the two causes. -/
theorem c8_auth_failure_uniform (P₁ P₂ : WebCrypto) (e₁ p₁ e₂ p₂ : String)
    (bs₁ bs₂ : List Nat)
    (hd₁ : base64Decode e₁ = some bs₁) (hl₁ : 44 ≤ bs₁.length)
    (hp₁ : 8 ≤ p₁.length)
    (ha₁ : P₁.aeadDec (P₁.deriveKey p₁ (bs₁.take 16)) ((bs₁.drop 16).take 12)
      (bs₁.drop 28) = none)
    (hd₂ : base64Decode e₂ = some bs₂) (hl₂ : 44 ≤ bs₂.length)
    (hp₂ : 8 ≤ p₂.length)
    (ha₂ : P₂.aeadDec (P₂.deriveKey p₂ (bs₂.take 16)) ((bs₂.drop 16).take 12)
      (bs₂.drop 28) = none) :
    decryptPayload P₁ e₁ p₁ = decryptPayload P₂ e₂ p₂ ∧
      (decryptPayload P₁ e₁ p₁).error = some DECRYPTION_FAILED_MSG := by
  rw [decrypt_auth_fail P₁ e₁ p₁ bs₁ hd₁ hl₁ hp₁ ha₁,
    decrypt_auth_fail P₂ e₂ p₂ bs₂ hd₂ hl₂ hp₂ ha₂]
  exact ⟨rfl, rfl⟩

/-- C8 witness: two concrete failing runs — different envelopes (the
last byte tampered differently) and different passwords. -/
theorem c8_auth_failure_uniform_witness :
    decryptPayload wPlatform (base64Encode (List.replicate 43 0 ++ [1]))
        "password123" =
      decryptPayload wPlatform (base64Encode (List.replicate 43 0 ++ [2]))
        "anotherpass" ∧
      (decryptPayload wPlatform (base64Encode (List.replicate 43 0 ++ [1]))
          "password123").error = some DECRYPTION_FAILED_MSG :=
  c8_auth_failure_uniform wPlatform wPlatform
    (base64Encode (List.replicate 43 0 ++ [1])) "password123"
    (base64Encode (List.replicate 43 0 ++ [2])) "anotherpass"
    (List.replicate 43 0 ++ [1]) (List.replicate 43 0 ++ [2])
    (by decide) (by decide) (by decide) (by decide)
    (by decide) (by decide) (by decide) (by decide)

/-! ## Base64 round-trip (for claim C1) -/

theorem b64Val_chr : ∀ v : Nat, v < 64 → b64Val (b64Chr v) = some v := by decide

theorem b64Chr_ne_pad : ∀ v : Nat, v < 64 → b64Chr v ≠ '=' := by decide

theorem b64_decode_encode :
    ∀ bs : List Nat, (∀ b ∈ bs, b < 256) → b64DecodeL (b64EncodeL bs) = some bs
  | [], _ => rfl
  | [a], h => by
      have ha : a < 256 := h a (by simp)
      have h1 := b64Val_chr (a / 4) (by omega)
      have h2 := b64Val_chr (a % 4 * 16) (by omega)
      have e1 : a / 4 * 4 + a % 4 * 16 / 16 = a := by omega
      simp [b64EncodeL, b64DecodeL, h1, h2, e1]
      omega
  | [a, b], h => by
      have ha : a < 256 := h a (by simp)
      have hb : b < 256 := h b (by simp)
      have h1 := b64Val_chr (a / 4) (by omega)
      have h2 := b64Val_chr (a % 4 * 16 + b / 16) (by omega)
      have h3 := b64Val_chr (b % 16 * 4) (by omega)
      have hne3 := b64Chr_ne_pad (b % 16 * 4) (by omega)
      have e1 : a / 4 * 4 + (a % 4 * 16 + b / 16) / 16 = a := by omega
      have e2 : (a % 4 * 16 + b / 16) % 16 * 16 + b % 16 * 4 / 4 = b := by omega
      simp [b64EncodeL, b64DecodeL, h1, h2, h3, hne3, e1, e2]
      omega
  | a :: b :: c :: rest, h => by
      have ha : a < 256 := h a (by simp)
      have hb : b < 256 := h b (by simp)
      have hc : c < 256 := h c (by simp)
      have hrest : ∀ x ∈ rest, x < 256 := fun x hx => h x (by simp [hx])
      have ih := b64_decode_encode rest hrest
      have h1 := b64Val_chr (a / 4) (by omega)
      have h2 := b64Val_chr (a % 4 * 16 + b / 16) (by omega)
      have h3 := b64Val_chr (b % 16 * 4 + c / 64) (by omega)
      have h4 := b64Val_chr (c % 64) (by omega)
      have hne3 := b64Chr_ne_pad (b % 16 * 4 + c / 64) (by omega)
      have hne4 := b64Chr_ne_pad (c % 64) (by omega)
      have e1 : a / 4 * 4 + (a % 4 * 16 + b / 16) / 16 = a := by omega
      have e2 : (a % 4 * 16 + b / 16) % 16 * 16 + (b % 16 * 4 + c / 64) / 4 = b := by
        omega
      have e3 : (b % 16 * 4 + c / 64) % 4 * 64 + c % 64 = c := by omega
      simp [b64EncodeL, b64DecodeL, h1, h2, h3, h4, hne3, hne4, ih, e1, e2, e3]

theorem base64_decode_encode (bs : List Nat) (h : ∀ b ∈ bs, b < 256) :
    base64Decode (base64Encode bs) = some bs :=
  b64_decode_encode bs h

theorem base64Encode_ne_empty (bs : List Nat) (h : bs ≠ []) :
    base64Encode bs ≠ "" := by
  intro he
  have hdata : b64EncodeL bs = [] := (string_eq_empty_iff _).1 he
  match bs, h with
  | [a], _ => cases hdata
  | [a, b], _ => cases hdata
  | a :: b :: c :: rest, _ => cases hdata

/-! ## Encryption round-trip (claim C1) -/

/-- C1 counterexample to the claim as stated: the whitespace-only
plaintext `" "` is a non-empty string, yet `encryptPayload` rejects it
(`EmptyPlaintext` covers whitespace-only input), so the claimed
encrypt-then-decrypt pipeline cannot return it. -/
theorem c1_counterexample :
    (encryptPayload wPlatform " " "password123"
        (List.replicate 16 0) (List.replicate 12 0)).success = false ∧
      decryptPayload wPlatform
          (encryptPayload wPlatform " " "password123"
            (List.replicate 16 0) (List.replicate 12 0)).encryptedData
          "password123" ≠ ⟨" ", true, none⟩ := by
  refine ⟨by decide, by decide⟩

/-- C1 (amended to plaintexts that are non-empty after trimming): for
every plaintext with non-whitespace content, every password of length at
least 8, and every fresh 16-byte salt and 12-byte nonce, encryption
succeeds and decrypting its envelope with the same password returns
exactly the original plaintext. -/
theorem c1_roundtrip (P : WebCrypto) (p w : String) (salt iv : List Nat)
    (hp : jsTrim p ≠ "") (hw : 8 ≤ w.length)
    (hsl : salt.length = 16) (hil : iv.length = 12)
    (hsb : ∀ b ∈ salt, b < 256) (hib : ∀ b ∈ iv, b < 256) :
    (encryptPayload P p w salt iv).success = true ∧
      decryptPayload P (encryptPayload P p w salt iv).encryptedData w =
        ⟨p, true, none⟩ := by
  have hptrim : ¬(p = "" ∨ (jsTrim p).length = 0) := by
    rintro (rfl | hh)
    · exact hp rfl
    · exact hp ((string_length_zero_iff _).1 hh)
  have hw0 : ¬(w = "" ∨ w.length < 8) := by
    rintro (rfl | hh)
    · exact absurd hw (by decide)
    · omega
  have hval : validateEncryptionInput p w = ⟨true, none, none⟩ := by
    unfold validateEncryptionInput
    rw [if_neg hptrim, if_neg hw0]
  have henc : encryptPayload P p w salt iv =
      ⟨base64Encode (salt ++ iv ++ P.aeadEnc (P.deriveKey w salt) iv (P.utf8Enc p)),
        true, none⟩ := by
    unfold encryptPayload
    rw [hval]
    rfl
  refine ⟨by rw [henc], ?_⟩
  rw [henc]
  have hcbytes : ∀ b ∈ salt ++ iv ++ P.aeadEnc (P.deriveKey w salt) iv (P.utf8Enc p),
      b < 256 := by
    intro b hb
    rcases List.mem_append.1 hb with hb | hb
    · rcases List.mem_append.1 hb with hb | hb
      · exact hsb b hb
      · exact hib b hb
    · exact P.enc_lt _ _ _ (P.utf8Enc_lt p) b hb
  have hdec := base64_decode_encode _ hcbytes
  have hclen : (salt ++ iv ++ P.aeadEnc (P.deriveKey w salt) iv (P.utf8Enc p)).length =
      44 + (P.utf8Enc p).length := by
    simp only [List.length_append, hsl, hil, P.encLen]
    omega
  have hne : base64Encode
      (salt ++ iv ++ P.aeadEnc (P.deriveKey w salt) iv (P.utf8Enc p)) ≠ "" := by
    apply base64Encode_ne_empty
    intro h0
    rw [h0] at hclen
    simp only [List.length_nil] at hclen
    omega
  have hw1 : w ≠ "" := by
    intro h
    rw [h] at hw
    exact absurd hw (by decide)
  unfold decryptPayload
  rw [if_neg (by tauto), if_neg (by omega)]
  split
  · next heq =>
      rw [hdec] at heq
      exact Option.noConfusion heq
  · next combined heq =>
      rw [hdec] at heq
      injection heq with h'
      subst h'
      rw [if_neg (by omega)]
      dsimp only
      have htake : (salt ++ iv ++ P.aeadEnc (P.deriveKey w salt) iv (P.utf8Enc p)).take 16 =
          salt := by
        rw [List.append_assoc, List.take_left' hsl]
      have hdrop16 :
          (salt ++ iv ++ P.aeadEnc (P.deriveKey w salt) iv (P.utf8Enc p)).drop 16 =
          iv ++ P.aeadEnc (P.deriveKey w salt) iv (P.utf8Enc p) := by
        rw [List.append_assoc, List.drop_left' hsl]
      have hiv :
          ((salt ++ iv ++ P.aeadEnc (P.deriveKey w salt) iv (P.utf8Enc p)).drop 16).take 12 =
          iv := by
        rw [hdrop16, List.take_left' hil]
      have hct : (salt ++ iv ++ P.aeadEnc (P.deriveKey w salt) iv (P.utf8Enc p)).drop 28 =
          P.aeadEnc (P.deriveKey w salt) iv (P.utf8Enc p) := by
        apply List.drop_left'
        simp [hsl, hil]
      rw [htake, hiv, hct]
      split
      · next pt heq2 =>
          rw [P.decEnc] at heq2
          injection heq2 with h2
          subst h2
          rw [P.utf8Dec_enc]
      · next heq2 =>
          rw [P.decEnc] at heq2
          exact Option.noConfusion heq2

/-! ## The exact 5-bit packing (claim C4) -/

theorem b32_index_getD :
    ∀ v : Nat, v < 32 → base32Alphabet.indexOf (base32Alphabet.getD v 'A') = v := by
  decide

theorem b32_pad_not_mem : ('=' : Char) ∉ base32Alphabet := by decide

theorem drainGo_zero (buffer bits : Nat) : drainGo 0 buffer bits = ([], bits) := rfl

theorem drainGo_succ (fuel buffer bits : Nat) :
    drainGo (fuel + 1) buffer bits =
      if 5 ≤ bits then
        (base32Alphabet.getD (buffer / 2 ^ (bits - 5) % 32) 'A' ::
          (drainGo fuel buffer (bits - 5)).1,
          (drainGo fuel buffer (bits - 5)).2)
      else ([], bits) := rfl

theorem packGo_nil_eq (buffer bits : Nat) :
    packGo [] buffer bits =
      if 0 < bits then
        [base32Alphabet.getD (buffer * 2 ^ (5 - bits) % 2 ^ 32 % 32) 'A']
      else [] := rfl

theorem packGo_cons_eq (b : Nat) (bs : List Nat) (buffer bits : Nat) :
    packGo (b :: bs) buffer bits =
      (drainB ((buffer * 256 + b) % 2 ^ 32) (bits + 8)).1 ++
        packGo bs ((buffer * 256 + b) % 2 ^ 32)
          (drainB ((buffer * 256 + b) % 2 ^ 32) (bits + 8)).2 := rfl

theorem b32Value_aux (cs : List Char) : ∀ a : Nat,
    cs.foldl (fun acc c => acc * 32 + base32Alphabet.indexOf c) a =
      a * 32 ^ cs.length +
        cs.foldl (fun acc c => acc * 32 + base32Alphabet.indexOf c) 0 := by
  induction cs with
  | nil =>
      intro a
      simp
  | cons c t ih =>
      intro a
      simp only [List.foldl_cons, List.length_cons]
      rw [ih (a * 32 + base32Alphabet.indexOf c),
        ih (0 * 32 + base32Alphabet.indexOf c)]
      ring

theorem b32Value_cons (c : Char) (cs : List Char) :
    b32Value (c :: cs) =
      base32Alphabet.indexOf c * 32 ^ cs.length + b32Value cs := by
  unfold b32Value
  simp only [List.foldl_cons]
  rw [b32Value_aux]
  ring

theorem b32Value_append (xs ys : List Char) :
    b32Value (xs ++ ys) = b32Value xs * 32 ^ ys.length + b32Value ys := by
  unfold b32Value
  rw [List.foldl_append, b32Value_aux]

theorem bytesValue_aux (bs : List Nat) : ∀ a : Nat,
    bs.foldl (fun acc b => acc * 256 + b) a =
      a * 256 ^ bs.length + bs.foldl (fun acc b => acc * 256 + b) 0 := by
  induction bs with
  | nil =>
      intro a
      simp
  | cons b t ih =>
      intro a
      simp only [List.foldl_cons, List.length_cons]
      rw [ih (a * 256 + b), ih (0 * 256 + b)]
      ring

theorem bytesValue_cons (b : Nat) (bs : List Nat) :
    bytesValue (b :: bs) = b * 256 ^ bs.length + bytesValue bs := by
  unfold bytesValue
  simp only [List.foldl_cons]
  rw [bytesValue_aux]
  ring

theorem drainGo_spec :
    ∀ (fuel buffer bits : Nat), bits / 5 ≤ fuel →
      (drainGo fuel buffer bits).2 = bits % 5 ∧
      (drainGo fuel buffer bits).1.length = bits / 5 ∧
      b32Value (drainGo fuel buffer bits).1 * 2 ^ (bits % 5) +
          buffer % 2 ^ (bits % 5) =
        buffer % 2 ^ bits := by
  intro fuel
  induction fuel with
  | zero =>
      intro buffer bits hf
      have hb : bits < 5 := by omega
      have hm : bits % 5 = bits := by omega
      rw [drainGo_zero]
      refine ⟨hm.symm, by simp; omega, ?_⟩
      simp [b32Value, hm]
  | succ fuel ih =>
      intro buffer bits hf
      by_cases h5 : 5 ≤ bits
      · have hfuel : (bits - 5) / 5 ≤ fuel := by omega
        obtain ⟨ih1, ih2, ih3⟩ := ih buffer (bits - 5) hfuel
        have hmod : (bits - 5) % 5 = bits % 5 := by omega
        rw [hmod] at ih1 ih3
        rw [drainGo_succ, if_pos h5]
        refine ⟨ih1, by simp [ih2]; omega, ?_⟩
        rw [b32Value_cons, ih2,
          b32_index_getD _ (Nat.mod_lt _ (by norm_num))]
        have hpow : (32 : Nat) ^ ((bits - 5) / 5) * 2 ^ (bits % 5) =
            2 ^ (bits - 5) := by
          have h32 : (32 : Nat) = 2 ^ 5 := by norm_num
          rw [h32, ← pow_mul, ← pow_add]
          congr 1
          omega
        have hsplit : buffer % 2 ^ bits =
            buffer % 2 ^ (bits - 5) +
              2 ^ (bits - 5) * (buffer / 2 ^ (bits - 5) % 32) := by
          have hb : (2 : Nat) ^ bits = 2 ^ (bits - 5) * 32 := by
            have h32 : (32 : Nat) = 2 ^ 5 := by norm_num
            rw [h32, ← pow_add]
            congr 1
            omega
          rw [hb]
          exact Nat.mod_mul
        calc (buffer / 2 ^ (bits - 5) % 32 * 32 ^ ((bits - 5) / 5) +
              b32Value (drainGo fuel buffer (bits - 5)).1) * 2 ^ (bits % 5) +
              buffer % 2 ^ (bits % 5)
            = buffer / 2 ^ (bits - 5) % 32 *
                (32 ^ ((bits - 5) / 5) * 2 ^ (bits % 5)) +
                (b32Value (drainGo fuel buffer (bits - 5)).1 * 2 ^ (bits % 5) +
                  buffer % 2 ^ (bits % 5)) := by ring
          _ = buffer / 2 ^ (bits - 5) % 32 * 2 ^ (bits - 5) +
                buffer % 2 ^ (bits - 5) := by rw [hpow, ih3]
          _ = buffer % 2 ^ bits := by rw [hsplit]; ring
      · have hb : bits < 5 := by omega
        have hm : bits % 5 = bits := by omega
        rw [drainGo_succ, if_neg h5]
        refine ⟨hm.symm, by simp; omega, ?_⟩
        simp [b32Value, hm]

theorem packGo_spec :
    ∀ (bs : List Nat) (buffer bits : Nat), (∀ b ∈ bs, b < 256) → bits < 5 →
      (packGo bs buffer bits).length = (8 * bs.length + bits + 4) / 5 ∧
      b32Value (packGo bs buffer bits) =
        (buffer % 2 ^ bits * 256 ^ bs.length + bytesValue bs) *
          2 ^ (5 * ((8 * bs.length + bits + 4) / 5) - (8 * bs.length + bits)) := by
  intro bs
  induction bs with
  | nil =>
      intro buffer bits hb hbits
      rw [packGo_nil_eq]
      by_cases h0 : 0 < bits
      · rw [if_pos h0]
        constructor
        · simp
          omega
        · rw [b32Value_cons, b32_index_getD _ (Nat.mod_lt _ (by norm_num))]
          have hmod32 : buffer * 2 ^ (5 - bits) % 2 ^ 32 % 32 =
              buffer * 2 ^ (5 - bits) % 32 :=
            Nat.mod_mod_of_dvd _ ⟨2 ^ 27, by norm_num⟩
          have hmul : buffer * 2 ^ (5 - bits) % 32 =
              buffer % 2 ^ bits * 2 ^ (5 - bits) := by
            have h32 : (32 : Nat) = 2 ^ bits * 2 ^ (5 - bits) := by
              rw [← pow_add]
              have hbe : bits + (5 - bits) = 5 := by omega
              rw [hbe]
              norm_num
            rw [h32, Nat.mul_mod_mul_right]
          have hexp : 5 * ((8 * ([] : List Nat).length + bits + 4) / 5) -
              (8 * ([] : List Nat).length + bits) = 5 - bits := by
            simp only [List.length_nil]
            omega
          rw [hexp, hmod32, hmul]
          simp [b32Value, bytesValue]
      · rw [if_neg h0]
        have hbz : bits = 0 := by omega
        subst hbz
        constructor
        · simp
        · simp [b32Value, bytesValue, Nat.mod_one]
  | cons b bs ih =>
      intro buffer bits hball hbits
      have hb256 : b < 256 := hball b (by simp)
      have hbs : ∀ x ∈ bs, x < 256 := fun x hx => hball x (by simp [hx])
      rw [packGo_cons_eq]
      simp only [drainB]
      have hd := drainGo_spec (bits + 8) ((buffer * 256 + b) % 2 ^ 32) (bits + 8)
        (by omega)
      obtain ⟨hd2, hdlen, hdval⟩ := hd
      have hkey : (buffer * 256 + b) % 2 ^ 32 % 2 ^ (bits + 8) =
          buffer % 2 ^ bits * 256 + b := by
        rw [Nat.mod_mod_of_dvd _ (pow_dvd_pow 2 (by omega : bits + 8 ≤ 32))]
        have hq := Nat.div_add_mod buffer (2 ^ bits)
        have hr : buffer % 2 ^ bits < 2 ^ bits :=
          Nat.mod_lt _ (pow_pos (by norm_num) bits)
        have h2 : (2 : Nat) ^ (bits + 8) = 2 ^ bits * 256 := by
          rw [pow_add]
          norm_num
        have harith : buffer * 256 + b =
            buffer % 2 ^ bits * 256 + b + buffer / 2 ^ bits * (2 ^ bits * 256) := by
          conv_lhs => rw [← hq]
          ring
        rw [h2, harith, Nat.add_mul_mod_self_right]
        exact Nat.mod_eq_of_lt (by omega)
      obtain ⟨ihlen, ihval⟩ := ih ((buffer * 256 + b) % 2 ^ 32)
        ((drainGo (bits + 8) ((buffer * 256 + b) % 2 ^ 32) (bits + 8)).2) hbs
        (by rw [hd2]; omega)
      rw [hd2] at ihlen ihval
      constructor
      · rw [List.length_append, hdlen, hd2, ihlen]
        simp only [List.length_cons]
        omega
      · rw [b32Value_append, hd2, ihlen, ihval, bytesValue_cons]
        have hexp1 : (32 : Nat) ^ ((8 * bs.length + (bits + 8) % 5 + 4) / 5) =
            2 ^ ((bits + 8) % 5) * (2 ^ (8 * bs.length) *
              2 ^ (5 * ((8 * bs.length + (bits + 8) % 5 + 4) / 5) -
                (8 * bs.length + (bits + 8) % 5))) := by
          have h32 : (32 : Nat) = 2 ^ 5 := by norm_num
          rw [h32, ← pow_mul, ← pow_add, ← pow_add]
          congr 1
          omega
        have hexp2 : (256 : Nat) ^ bs.length = 2 ^ (8 * bs.length) := by
          have h256 : (256 : Nat) = 2 ^ 8 := by norm_num
          rw [h256, ← pow_mul]
        have hexp3 : (256 : Nat) ^ (b :: bs).length = 2 ^ (8 * bs.length) * 256 := by
          simp only [List.length_cons]
          rw [pow_succ, hexp2]
        have hPP : 5 * ((8 * (b :: bs).length + bits + 4) / 5) -
            (8 * (b :: bs).length + bits) =
            5 * ((8 * bs.length + (bits + 8) % 5 + 4) / 5) -
              (8 * bs.length + (bits + 8) % 5) := by
          simp only [List.length_cons]
          omega
        rw [hexp1, hexp2, hexp3, hPP]
        calc b32Value (drainGo (bits + 8) ((buffer * 256 + b) % 2 ^ 32) (bits + 8)).1 *
              (2 ^ ((bits + 8) % 5) * (2 ^ (8 * bs.length) *
                2 ^ (5 * ((8 * bs.length + (bits + 8) % 5 + 4) / 5) -
                  (8 * bs.length + (bits + 8) % 5)))) +
              ((buffer * 256 + b) % 2 ^ 32 % 2 ^ ((bits + 8) % 5) *
                  2 ^ (8 * bs.length) + bytesValue bs) *
                2 ^ (5 * ((8 * bs.length + (bits + 8) % 5 + 4) / 5) -
                  (8 * bs.length + (bits + 8) % 5))
            = ((b32Value (drainGo (bits + 8) ((buffer * 256 + b) % 2 ^ 32)
                  (bits + 8)).1 * 2 ^ ((bits + 8) % 5) +
                (buffer * 256 + b) % 2 ^ 32 % 2 ^ ((bits + 8) % 5)) *
                  2 ^ (8 * bs.length) + bytesValue bs) *
                2 ^ (5 * ((8 * bs.length + (bits + 8) % 5 + 4) / 5) -
                  (8 * bs.length + (bits + 8) % 5)) := by ring
          _ = ((buffer % 2 ^ bits * 256 + b) * 2 ^ (8 * bs.length) + bytesValue bs) *
                2 ^ (5 * ((8 * bs.length + (bits + 8) % 5 + 4) / 5) -
                  (8 * bs.length + (bits + 8) % 5)) := by rw [hdval, hkey]
          _ = (buffer % 2 ^ bits * (2 ^ (8 * bs.length) * 256) +
                (b * 2 ^ (8 * bs.length) + bytesValue bs)) *
                2 ^ (5 * ((8 * bs.length + (bits + 8) % 5 + 4) / 5) -
                  (8 * bs.length + (bits + 8) % 5)) := by ring

/-- C4: the packing loop shared by the hexadecimal and raw-text paths is
exactly the MSB-first 5-bit packing: for a byte sequence of length `n`
the output has `ceil(8n/5) = (8n+4)/5` symbols; read as base-32 digits it
equals the byte stream's value shifted left by the zero-fill amount
`5*ceil(8n/5) - 8n` (which pins down every emitted symbol, including the
final zero-padded leftover one); every symbol is from the canonical
alphabet and no `=` padding is emitted.  `hexToBase32` applies it to the
parsed hex byte pairs, and `wordsToBase32` to the UTF-8 bytes whenever
its canonical-form shortcut does not fire. -/
theorem c4_packing (bs : List Nat) (h : ∀ b ∈ bs, b < 256) :
    (base32PackBytes bs).data.length = (8 * bs.length + 4) / 5 ∧
    b32Value (base32PackBytes bs).data =
      bytesValue bs * 2 ^ (5 * ((8 * bs.length + 4) / 5) - 8 * bs.length) ∧
    (∀ c ∈ (base32PackBytes bs).data, c ∈ base32Alphabet) ∧
    '=' ∉ (base32PackBytes bs).data ∧
    (∀ s : String, hexToBase32 s = base32PackBytes (hexPairsBytes s.data)) ∧
    (∀ s : String, matchesBase32 (stripWSUpper s) = false →
      wordsToBase32 s = base32PackBytes (utf8Encode (stripWSUpper s))) := by
  obtain ⟨hlen, hval⟩ := packGo_spec bs 0 0 h (by norm_num)
  have hdata : (base32PackBytes bs).data = packGo bs 0 0 := rfl
  refine ⟨?_, ?_, ?_, ?_, ?_, ?_⟩
  · rw [hdata, hlen]
  · rw [hdata, hval]
    simp only [pow_zero, Nat.mod_one, Nat.zero_mul, Nat.zero_add, Nat.add_zero]
  · intro c hc
    rw [hdata] at hc
    exact packGo_mem _ _ _ c hc
  · intro hc
    rw [hdata] at hc
    exact b32_pad_not_mem (packGo_mem _ _ _ _ hc)
  · intro s
    rfl
  · intro s hm
    simp only [wordsToBase32]
    rw [hm]
    simp

/-- C4 witness: the two bytes `0x48 0x69` (`"Hi"`) pack to four symbols. -/
theorem c4_packing_witness :
    (base32PackBytes [72, 105]).data.length =
      (8 * ([72, 105] : List Nat).length + 4) / 5 ∧
    b32Value (base32PackBytes [72, 105]).data =
      bytesValue [72, 105] *
        2 ^ (5 * ((8 * ([72, 105] : List Nat).length + 4) / 5) -
          8 * ([72, 105] : List Nat).length) ∧
    (∀ c ∈ (base32PackBytes [72, 105]).data, c ∈ base32Alphabet) ∧
    '=' ∉ (base32PackBytes [72, 105]).data ∧
    (∀ s : String, hexToBase32 s = base32PackBytes (hexPairsBytes s.data)) ∧
    (∀ s : String, matchesBase32 (stripWSUpper s) = false →
      wordsToBase32 s = base32PackBytes (utf8Encode (stripWSUpper s))) :=
  c4_packing [72, 105] (by decide)

/-- C1 witness: the spec's concrete scenario 3 with fixed injected
randomness. -/
theorem c1_roundtrip_witness :
    (encryptPayload wPlatform "attack at dawn" "correct horse battery staple"
        (List.replicate 16 7) (List.replicate 12 3)).success = true ∧
      decryptPayload wPlatform
          (encryptPayload wPlatform "attack at dawn" "correct horse battery staple"
            (List.replicate 16 7) (List.replicate 12 3)).encryptedData
          "correct horse battery staple" = ⟨"attack at dawn", true, none⟩ :=
  c1_roundtrip wPlatform "attack at dawn" "correct horse battery staple"
    (List.replicate 16 7) (List.replicate 12 3)
    (by decide) (by decide) (by decide) (by decide) (by decide) (by decide)

end QRGen
